import Mathlib

/-!
Verification of the rule-execution pipeline of a multi-language static
analyzer.  The Rust sources are shallowly embedded: strings handled
character-wise by the suppression parser are `List Char`; the
generated-content heuristics operate on raw UTF-8 bytes and are embedded
over `List Nat`.
-/

set_option maxHeartbeats 1000000
set_option maxRecDepth 16384

/-- Character strings, as the suppression parser sees them. -/
abbrev Str := List Char

/-- Byte strings (UTF-8), as the generated-content heuristics see them. -/
abbrev Bytes := List Nat

namespace StaticAnalyzer

/-- The `Language` enumeration (`model/common.rs`); the seventeen variants are
exactly the ones matched in `get_lines_to_ignore`. -/
inductive Language where
  | Python | Starlark | Dockerfile | Ruby | Terraform | Yaml | Bash
  | JavaScript | TypeScript
  | Go | Rust | Csharp | Java | Kotlin | Swift
  | Json | PHP
  deriving DecidableEq, Repr

/-- Substring containment, the embedding of Rust `str::contains` for string
patterns (byte- and character-level containment agree on valid UTF-8). -/
def listContains {α : Type} [DecidableEq α] (pat : List α) : List α → Bool
  | [] => pat.isEmpty
  | c :: t => pat.isPrefixOf (c :: t) || listContains pat t

/-- Remove a single trailing element `x` if present (used for the `\r` of a
`\r\n` line terminator). -/
def stripTrailing {α : Type} [DecidableEq α] (x : α) (l : List α) : List α :=
  if l.getLast? = some x then l.dropLast else l

/-- Worker for `rustLines`: accumulates the current line (reversed) and splits
at each `nl`, stripping a `cr` that immediately precedes it.  A terminator on
the very last element does not open a new (empty) line, matching Rust
`str::lines`. -/
def rustLinesGo {α : Type} [DecidableEq α] (nl cr : α) (acc : List α) : List α → List (List α)
  | [] => [acc.reverse]
  | a :: t =>
    if a = nl then
      if t = [] then [stripTrailing cr acc.reverse]
      else stripTrailing cr acc.reverse :: rustLinesGo nl cr [] t
    else rustLinesGo nl cr (a :: acc) t

/-- The embedding of Rust `str::lines`: split at `\n` or `\r\n`, with an
optional final terminator. -/
def rustLines {α : Type} [DecidableEq α] (nl cr : α) (s : List α) : List (List α) :=
  if s = [] then [] else rustLinesGo nl cr [] s

theorem rustLinesGo_ne_nil {α : Type} [DecidableEq α] (nl cr : α) (acc : List α)
    (s : List α) : rustLinesGo nl cr acc s ≠ [] := by
  induction s generalizing acc with
  | nil => simp [rustLinesGo]
  | cons a t ih =>
    simp only [rustLinesGo]
    split
    · split <;> simp [ih]
    · exact ih _

theorem rustLines_eq_nil_iff {α : Type} [DecidableEq α] (nl cr : α) (s : List α) :
    rustLines nl cr s = [] ↔ s = [] := by
  unfold rustLines
  split
  · simp_all
  · simp_all [rustLinesGo_ne_nil]

/-! ## Generated-file and minified-file detectors
(`crates/static-analysis-kernel/src/analysis/generated_content.rs`) -/

/-- UTF-8 encoding of an ASCII marker string. -/
def strBytes (s : String) : Bytes := s.toList.map Char.toNat

/-- `PROTOBUF_HEADER` from `generated_content.rs`. -/
def PROTOBUF_HEADER : Bytes := strBytes ("Generated by the protocol buffer compiler.  DO NOT EDIT!")

/-- `THRIFT_HEADER` from `generated_content.rs`. -/
def THRIFT_HEADER : Bytes := strBytes ("Autogenerated by Thrift Compiler")

/-- `MAX_HEADER_SIZE` from `generated_content.rs`. -/
def MAX_HEADER_SIZE : Nat := 400

/-- The embedding of Rust `str::is_char_boundary`: true at 0, at the total
length, and at any byte that is not a UTF-8 continuation byte. -/
def isCharBoundary (bytes : Bytes) (n : Nat) : Bool :=
  if n = 0 then true
  else
    match bytes[n]? with
    | none => n = bytes.length
    | some b => b < 128 || 192 ≤ b

/-- The embedding of `is_generated_file`.  `full_content.get(0..n)` yields the
prefix only when `n` is a character boundary; the source falls back to the
whole content (`unwrap_or(full_content)`) otherwise. -/
def is_generated_file (full_content : Bytes) (language : Language) : Bool :=
  let size_to_analyze := min MAX_HEADER_SIZE full_content.length
  let content :=
    if isCharBoundary full_content size_to_analyze then full_content.take size_to_analyze
    else full_content
  match language with
  | Language.Go =>
      listContains (strBytes ("Code generated by")) content
        || listContains PROTOBUF_HEADER content
        || listContains THRIFT_HEADER content
  | Language.Java =>
      listContains (strBytes ("generated by the protocol buffer compiler")) content
        || listContains PROTOBUF_HEADER content
        || listContains THRIFT_HEADER content
  | Language.JavaScript =>
      listContains (strBytes ("Generated by PEG.js")) content
        || listContains (strBytes ("GENERATED CODE -- DO NOT EDIT!")) content
        || listContains THRIFT_HEADER content
  | Language.Python =>
      listContains (strBytes ("Generated protocol buffer code")) content
        || listContains (strBytes ("Generated by the gRPC Python protocol compiler plugin")) content
        || listContains (strBytes ("Code generated by")) content
        || listContains PROTOBUF_HEADER content
        || listContains THRIFT_HEADER content
  | Language.Ruby =>
      listContains PROTOBUF_HEADER content || listContains THRIFT_HEADER content
  | Language.TypeScript =>
      listContains (strBytes ("Generated by PEG.js")) content
        || listContains (strBytes ("GENERATED CODE -- DO NOT EDIT!")) content
        || listContains THRIFT_HEADER content
  | _ => false

/-- The marker lists of §4.7 of the specification, one per listed language and
empty for every unlisted language. -/
def generatedMarkers (language : Language) : List Bytes :=
  match language with
  | Language.Go =>
      [strBytes ("Code generated by"), PROTOBUF_HEADER, THRIFT_HEADER]
  | Language.Java =>
      [strBytes ("generated by the protocol buffer compiler"), PROTOBUF_HEADER, THRIFT_HEADER]
  | Language.JavaScript =>
      [strBytes ("Generated by PEG.js"), strBytes ("GENERATED CODE -- DO NOT EDIT!"), THRIFT_HEADER]
  | Language.Python =>
      [strBytes ("Generated protocol buffer code"),
       strBytes ("Generated by the gRPC Python protocol compiler plugin"),
       strBytes ("Code generated by"), PROTOBUF_HEADER, THRIFT_HEADER]
  | Language.Ruby => [PROTOBUF_HEADER, THRIFT_HEADER]
  | Language.TypeScript =>
      [strBytes ("Generated by PEG.js"), strBytes ("GENERATED CODE -- DO NOT EDIT!"), THRIFT_HEADER]
  | _ => []

/-- The region of the file that `is_generated_file` actually examines: the
`min(400, length)`-byte prefix when that offset is a character boundary, and
the entire content otherwise. -/
def examinedHeader (full_content : Bytes) : Bytes :=
  let n := min MAX_HEADER_SIZE full_content.length
  if isCharBoundary full_content n then full_content.take n else full_content

/-- The embedding of `is_minified_file`: JavaScript only, average line length
computed with integer (floor) division of total line length by line count. -/
def is_minified_file (content : Bytes) (language : Language) : Bool :=
  if language = Language.JavaScript then
    if (rustLines 10 13 content).length = 0 then false
    else 110 < ((rustLines 10 13 content).map List.length).sum / (rustLines 10 13 content).length
  else false

/-! ## Suppression parser
(`crates/static-analysis-kernel/src/analysis/analyze.rs`, `get_lines_to_ignore`) -/

/-- Rust `char::is_whitespace`: the Unicode `White_Space` property. -/
def isRustWhitespace (c : Char) : Bool :=
  let n := c.toNat
  n = 0x20 || (0x9 ≤ n && n ≤ 0xD) || n = 0x85 || n = 0xA0 || n = 0x1680
    || (0x2000 ≤ n && n ≤ 0x200A) || n = 0x2028 || n = 0x2029 || n = 0x202F
    || n = 0x205F || n = 0x3000

/-- `line.chars().filter(|c| !c.is_whitespace()).collect()`. -/
def stripWhitespace (line : Str) : Str := line.filter (fun c => !isRustWhitespace c)

/-- Fueled worker for `replaceAll`; the fuel is the length of the subject
string, which bounds the recursion because every step consumes at least one
element of a nonempty pattern match or one head element. -/
def replaceAllGo (pat rep : Str) : Nat → Str → Str
  | _, [] => []
  | 0, s => s
  | n + 1, c :: t =>
    if pat.isPrefixOf (c :: t) && !pat.isEmpty then
      rep ++ replaceAllGo pat rep n ((c :: t).drop pat.length)
    else c :: replaceAllGo pat rep n t

/-- The embedding of Rust `str::replace`: replace every non-overlapping
occurrence of `pat` (left to right) by `rep`; replacements are not rescanned. -/
def replaceAll (pat rep s : Str) : Str := replaceAllGo pat rep s.length s

/-- The rule-identifier extraction of `get_lines_to_ignore`: strip the comment
and marker substrings, normalize separators, split on whitespace, and keep the
tokens holding a `/`. -/
def extractRules (line : Str) : List Str :=
  let s := replaceAll (("//").toList) [] line
  let s := replaceAll (("/*").toList) [] s
  let s := replaceAll (("*/").toList) [] s
  let s := replaceAll (("#").toList) [] s
  let s := replaceAll (("no-dd-sa").toList) [] s
  let s := replaceAll (("datadog-disable").toList) [] s
  let s := replaceAll ((":").toList) [] s
  let s := replaceAll ((",").toList) ([' ']) s
  ((s.splitOnP isRustWhitespace).filter (fun t => t ≠ [])).filter (fun t => '/' ∈ t)

/-- Modelled from the spec: the rule-identifier list of §4.1 step 2, stated in
the specification's own words — "remove substrings `//`, `/*`, `*/`, `#`,
`no-dd-sa`, `datadog-disable`, `:`, replace `,` with space, split on
whitespace, and keep only tokens containing `/`". -/
def extractRulesSpec (line : Str) : List Str :=
  let afterRemovals :=
    replaceAll ((",").toList) ([' '])
      (replaceAll ((":").toList) []
        (replaceAll (("datadog-disable").toList) []
          (replaceAll (("no-dd-sa").toList) []
            (replaceAll (("#").toList) []
              (replaceAll (("*/").toList) []
                (replaceAll (("/*").toList) []
                  (replaceAll (("//").toList) [] line)))))))
  let tokens := (afterRemovals.splitOnP isRustWhitespace).filter (fun t => t ≠ [])
  tokens.filter (fun t => '/' ∈ t)

/-- The per-language disabling patterns of `get_lines_to_ignore`. -/
def disabling_patterns (language : Language) : List Str :=
  match language with
  | Language.Python | Language.Starlark | Language.Dockerfile | Language.Ruby
  | Language.Terraform | Language.Yaml | Language.Bash =>
      [("#no-dd-sa").toList, ("#datadog-disable").toList]
  | Language.JavaScript | Language.TypeScript =>
      [("//no-dd-sa").toList, ("/*no-dd-sa").toList,
       ("//datadog-disable").toList, ("/*datadog-disable").toList]
  | Language.Go | Language.Rust | Language.Csharp | Language.Java
  | Language.Kotlin | Language.Swift =>
      [("//no-dd-sa").toList, ("//datadog-disable").toList]
  | Language.Json => [("impossiblestringtoreach").toList]
  | Language.PHP =>
      [("//no-dd-sa").toList, ("/*no-dd-sa").toList,
       ("//datadog-disable").toList, ("/*datadog-disable").toList,
       ("#no-dd-sa").toList, ("#datadog-disable").toList]

/-- `FileIgnoreBehavior` (`model/analysis.rs`, modelled from the spec's §3
data model: suppress every rule, or only the listed rule identifiers). -/
inductive FileIgnoreBehavior where
  | AllRules : FileIgnoreBehavior
  | SomeRules : List Str → FileIgnoreBehavior
  deriving DecidableEq, Repr

/-- `LinesToIgnore` (`model/analysis.rs`, modelled from the spec's §3 data
model); the `HashMap` is embedded as an association list with unique keys. -/
structure LinesToIgnore where
  lines_to_ignore : List Nat
  lines_to_ignore_per_rule : List (Nat × List Str)
  ignore_file : FileIgnoreBehavior
  deriving DecidableEq, Repr

/-- Association-list insertion with the overwrite semantics of
`HashMap::insert`. -/
def assocInsert {β : Type} (k : Nat) (v : β) : List (Nat × β) → List (Nat × β)
  | [] => [(k, v)]
  | (k2, v2) :: t => if k2 = k then (k, v) :: t else (k2, v2) :: assocInsert k v t

/-- The mutable state of the `get_lines_to_ignore` loop. -/
structure IgnoreAccum where
  linesAll : List Nat
  perRule : List (Nat × List Str)
  ignoreFileAllRules : Bool
  rulesToIgnore : List Str
  deriving Repr

/-- Initial loop state of `get_lines_to_ignore`. -/
def initAccum : IgnoreAccum := ⟨[], [], false, []⟩

/-- One iteration of the inner `for p in &disabling_patterns` loop of
`get_lines_to_ignore`, at 1-based line number `n`. -/
def stepPat (n : Nat) (line : Str) (st : IgnoreAccum) (p : Str) : IgnoreAccum :=
  if listContains p (stripWhitespace line) then
    let parts := extractRules line
    if parts = [] then
      if n = 1 then { st with ignoreFileAllRules := true }
      else { st with linesAll := st.linesAll ++ [n + 1] }
    else if n = 1 then { st with rulesToIgnore := st.rulesToIgnore ++ parts }
    else { st with perRule := assocInsert (n + 1) parts st.perRule }
  else st

/-- Processing of one source line by `get_lines_to_ignore`: every disabling
pattern contained in the whitespace-stripped line is handled. -/
def processLine (pats : List Str) (n : Nat) (line : Str) (st : IgnoreAccum) : IgnoreAccum :=
  pats.foldl (stepPat n line) st

/-- The outer `for line in code.lines()` loop of `get_lines_to_ignore`,
starting at line number `n`. -/
def processLines (pats : List Str) : Nat → List Str → IgnoreAccum → IgnoreAccum
  | _, [], st => st
  | n, l :: ls, st => processLines pats (n + 1) ls (processLine pats n l st)

/-- The embedding of `get_lines_to_ignore`. -/
def get_lines_to_ignore (code : Str) (language : Language) : LinesToIgnore :=
  { lines_to_ignore :=
      (processLines (disabling_patterns language) 1 (rustLines '\n' '\r' code) initAccum).linesAll,
    lines_to_ignore_per_rule :=
      (processLines (disabling_patterns language) 1 (rustLines '\n' '\r' code) initAccum).perRule,
    ignore_file :=
      if (processLines (disabling_patterns language) 1 (rustLines '\n' '\r' code)
            initAccum).ignoreFileAllRules then
        FileIgnoreBehavior.AllRules
      else
        FileIgnoreBehavior.SomeRules
          (processLines (disabling_patterns language) 1 (rustLines '\n' '\r' code)
            initAccum).rulesToIgnore }

/-- Whether the whitespace-stripped line contains one of the language's
disabling patterns (§4.1 step 1). -/
def lineMatches (pats : List Str) (line : Str) : Bool :=
  pats.any (fun p => listContains p (stripWhitespace line))

/-! ## Argument provider (`crates/cli/src/config_file.rs`)

File paths are embedded as lists of components; `Path::display` rejoins them
with `/`, `Path::parent` drops the last component, and the parent of the empty
path is `None`. -/

/-- `ArgumentValues` (`model/config_file.rs`): a default and a map keyed by
path prefix, embedded as an association list. -/
structure ArgumentValues where
  default_value : Option String
  by_subtree : List (String × String)
  deriving Repr

/-- `RuleConfig` (`model/config_file.rs`): the per-rule argument table. -/
structure RuleConfig where
  arguments : List (String × ArgumentValues)
  deriving Repr

/-- `RulesetConfig` (`model/config_file.rs`): the rules of one ruleset. -/
structure RulesetConfig where
  rules : List (String × RuleConfig)
  deriving Repr

/-- `ConfigFile` (`model/config_file.rs`): the rulesets table. -/
structure ConfigFile where
  rulesets : List (String × RulesetConfig)
  deriving Repr

/-- `Path::display` on a component list. -/
def displayPath (components : List String) : String :=
  String.intercalate ("/") components

/-- The ancestor walk of `filter_arguments`, recursing on the reversed
component list: look the current path up in `by_subtree` and fall back to the
parent, stopping at the root. -/
def resolveLoop (by_subtree : List (String × String)) : List String → Option String
  | [] => List.lookup (displayPath []) by_subtree
  | c :: parentRev =>
    match List.lookup (displayPath (c :: parentRev).reverse) by_subtree with
    | some v => some v
    | none => resolveLoop by_subtree parentRev

/-- The per-argument resolution of `filter_arguments`: the deepest `by_subtree`
hit wins; otherwise the `default_value` (set before the loop) survives. -/
def resolveArgument (av : ArgumentValues) (filename : List String) : Option String :=
  match resolveLoop av.by_subtree filename.reverse with
  | some v => some v
  | none => av.default_value

/-- The embedding of `filter_arguments`: emit one entry per configured
argument that resolved to a value. -/
def filter_arguments (arguments : List (String × ArgumentValues)) (filename : List String) :
    List (String × String) :=
  arguments.filterMap (fun nv => (resolveArgument nv.2 filename).map (fun v => (nv.1, v)))

/-- `split_rule_name`: split at the first `/`; no separator yields an empty
ruleset name. -/
def split_rule_name (name : String) : String × String :=
  match name.toList.splitOnP (fun c => c = '/') with
  | [] => (("") , name)
  | [_] => (("") , name)
  | part1 :: rest => (String.mk part1, String.mk (List.intercalate (['/']) rest))

/-- The embedding of `ConfigFileArgumentProvider::get_arguments`: look the
ruleset and short name up and filter that rule's arguments for the file. -/
def get_arguments (config : ConfigFile) (filename : List String) (rulename : String) :
    List (String × String) :=
  match (List.lookup (split_rule_name rulename).1 config.rulesets).bind
      (fun r => List.lookup (split_rule_name rulename).2 r.rules) with
  | none => []
  | some cfg => filter_arguments cfg.arguments filename

/-- The ancestor chain of §4.2, deepest first, built over the reversed
component list. -/
def ancestorsRev : List String → List (List String)
  | [] => [[]]
  | c :: rest => (c :: rest).reverse :: ancestorsRev rest

/-- The ancestors of a path from deepest (the path itself) to the root. -/
def pathAncestors (path : List String) : List (List String) := ancestorsRev path.reverse

/-- Modelled from the spec: §4.2's resolution — "walk ancestors of the file
path from deepest to root; for each ancestor, if the argument's `by_subtree`
map has an entry keyed by that path, use it and stop; otherwise use the
argument's `default_value` if present". -/
def resolveArgumentSpec (av : ArgumentValues) (filename : List String) : Option String :=
  match (pathAncestors filename).findSome?
      (fun a => List.lookup (displayPath a) av.by_subtree) with
  | some v => some v
  | none => av.default_value

/-! ## Script execution and result translation
(`crates/static-analysis-kernel/src/analysis/javascript.rs` and the
`Ok`/`Err` translation of `analyze_with` in `analyze.rs`) -/

/-- `Position` (modelled from the spec's §3 data model: 1-based line and
column). -/
structure Position where
  line : Nat
  col : Nat
  deriving DecidableEq, Repr

/-- Edit kinds (modelled from the spec's §3 data model). -/
inductive EditKind where
  | ADD | REMOVE | UPDATE
  deriving DecidableEq, Repr

/-- `Edit` (modelled from the spec's §3 data model); `stop` embeds the source
field `end`, a reserved word here. -/
structure Edit where
  start : Position
  stop : Position
  kind : EditKind
  content : Option Str
  deriving DecidableEq, Repr

/-- `Fix` (modelled from the spec's §3 data model). -/
structure Fix where
  description : Str
  edits : List Edit
  deriving DecidableEq, Repr

/-- `Violation` (modelled from the spec's §3 data model); `stop` embeds the
source field `end`. -/
structure Violation where
  start : Position
  stop : Position
  message : Str
  severity : Str
  category : Str
  fixes : List Fix
  deriving DecidableEq, Repr

/-- `ExecutionError` (`javascript.rs`): the four failure modes of a script
invocation; the timeout carries the elapsed duration in milliseconds. -/
inductive ExecutionError where
  | Execution (reason : Str)
  | ExecutionTimeout (elapsedMs : Nat)
  | Interpreter (reason : Str)
  | UnexpectedReturnValue (reason : Str)
  deriving DecidableEq, Repr

/-- Modelled from the spec: the `rule-timeout` error-kind tag of §3
(`ERROR_RULE_TIMEOUT` in `model/analysis.rs`). -/
def ERROR_RULE_TIMEOUT : Str := ("rule-timeout").toList

/-- Modelled from the spec: the `rule-execution-error` error-kind tag of §3
(`ERROR_RULE_EXECUTION` in `model/analysis.rs`). -/
def ERROR_RULE_EXECUTION : Str := ("rule-execution-error").toList

/-- `RuleResult` (modelled from the spec's §3 data model). -/
structure RuleResult where
  rule_name : Str
  filename : Str
  violations : List Violation
  errors : List Str
  execution_error : Option Str
  output : Option Str
  execution_time_ms : Nat
  parsing_time_ms : Nat
  query_node_time_ms : Nat
  deriving Repr

/-- `ExecutionResult` (modelled from the spec: the runtime's successful
outcome consumed by `analyze_with` — violations, console lines, timings). -/
structure ExecutionResult where
  violations : List Violation
  console_lines : List Str
  timing_execution_ms : Nat
  timing_ts_query_ms : Nat
  deriving Repr

/-- Modelled from the spec: `LinesToIgnore::should_filter_rule`
(`model/analysis.rs`, absent from the sources) — "a violation (rule R, line L)
is filtered iff ignore_file is AllRules, or ignore_file is SomeRules
containing R, or L ∈ lines_to_ignore, or L ∈ lines_to_ignore_per_rule and
R ∈ lines_to_ignore_per_rule[L]". -/
def should_filter_rule (lti : LinesToIgnore) (ruleName : Str) (line : Nat) : Bool :=
  match lti.ignore_file with
  | FileIgnoreBehavior.AllRules => true
  | FileIgnoreBehavior.SomeRules rules =>
      decide (ruleName ∈ rules) || decide (line ∈ lti.lines_to_ignore)
        || match List.lookup line lti.lines_to_ignore_per_rule with
           | some ids => decide (ruleName ∈ ids)
           | none => false

/-- The filtering condition of §3, as a proposition. -/
def specFilterProp (lti : LinesToIgnore) (ruleName : Str) (line : Nat) : Prop :=
  lti.ignore_file = FileIgnoreBehavior.AllRules
    ∨ (∃ rules, lti.ignore_file = FileIgnoreBehavior.SomeRules rules ∧ ruleName ∈ rules)
    ∨ line ∈ lti.lines_to_ignore
    ∨ (∃ ids, List.lookup line lti.lines_to_ignore_per_rule = some ids ∧ ruleName ∈ ids)

/-- Join console lines with `\n` (`console_lines.join("\n")`). -/
def joinLines : List Str → Str
  | [] => []
  | [x] => x
  | x :: xs => x ++ '\n' :: joinLines xs

/-- The `Result` → `RuleResult` translation of `analyze_with`
(`analyze.rs`): on success, filter violations through
`should_filter_rule` and attach console output when nonempty and enabled; on
timeout, the `rule-timeout` tag with no execution error; on any other error,
the `rule-execution-error` tag with the error's rendered reason. -/
def analyzeRuleResult (lti : LinesToIgnore) (ruleName filename : Str) (logOutput : Bool)
    (cstParsingMs : Nat) (res : Except ExecutionError ExecutionResult) : RuleResult :=
  match res with
  | Except.ok execution =>
      let console_output :=
        if !execution.console_lines.isEmpty && logOutput then
          some (joinLines execution.console_lines)
        else none
      let violations :=
        execution.violations.filter (fun v => !should_filter_rule lti ruleName v.start.line)
      { rule_name := ruleName, filename := filename, violations := violations,
        errors := [], execution_error := none, output := console_output,
        execution_time_ms := execution.timing_execution_ms,
        parsing_time_ms := cstParsingMs,
        query_node_time_ms := execution.timing_ts_query_ms }
  | Except.error err =>
      let pair : Str × Option Str :=
        match err with
        | ExecutionError.ExecutionTimeout _ => (ERROR_RULE_TIMEOUT, none)
        | ExecutionError.Execution reason =>
            (ERROR_RULE_EXECUTION, some (("error executing JavaScript: ").toList ++ reason))
        | ExecutionError.Interpreter reason =>
            (ERROR_RULE_EXECUTION,
             some (("unable to interpret JavaScript: `").toList ++ reason ++ ['`']))
        | ExecutionError.UnexpectedReturnValue reason =>
            (ERROR_RULE_EXECUTION,
             some (("expected value returned from JavaScript execution: `").toList
               ++ reason ++ ['`']))
      { rule_name := ruleName, filename := filename, violations := [],
        errors := [pair.1], execution_error := pair.2, output := none,
        execution_time_ms := 0, parsing_time_ms := cstParsingMs, query_node_time_ms := 0 }

/-- The observable isolate state of `execute_rule_internal`: whether the three
injected globals are set and whether a v8 termination request is pending. -/
structure IsolateState where
  nodes_set : Bool
  file_context_set : Bool
  filename_set : Bool
  termination_requested : Bool
  deriving DecidableEq, Repr

/-- The outcome of running the compiled script inside v8 (when it was neither
terminated nor failed to compile). -/
inductive RunValue where
  | threw (reason : Str)
  | notArray (reason : Str)
  | badViolation (reason : Str)
  | completed (violations : List Violation)
  deriving Repr

/-- `JAVASCRIPT_EXECUTION_TIMEOUT` (`analyze.rs` / `javascript.rs`): the
wall-clock budget, in milliseconds, of one script execution. -/
def JAVASCRIPT_EXECUTION_TIMEOUT_MS : Nat := 5000

/-- The abstract events of one `execute_rule_internal` call: an optional
compilation failure, whether the watchdog timed the script out (it fires
exactly when the elapsed wall clock exceeds the budget before the script
finishes), the run's outcome otherwise, and the elapsed milliseconds. -/
structure ScriptExecution where
  compileError : Option Str
  timedOut : Bool
  run : RunValue
  elapsedMs : Nat
  deriving Repr

/-- The embedding of `execute_rule_internal` (`javascript.rs`): set the three
`GLOBAL_` slots, compile, run under the watchdog; on a timeout the watchdog's
`terminate_execution` is undone by `cancel_terminate_execution` before the
early error return; the three slots are deleted just before the `Ok` return. -/
def execute_rule_internal (ex : ScriptExecution) (iso : IsolateState) :
    IsolateState × Except ExecutionError (List Violation) :=
  let iso1 := { iso with nodes_set := true, file_context_set := true, filename_set := true }
  match ex.compileError with
  | some reason => (iso1, Except.error (ExecutionError.Interpreter reason))
  | none =>
    if ex.timedOut then
      let iso2 := { iso1 with termination_requested := true }
      ({ iso2 with termination_requested := false },
       Except.error (ExecutionError.ExecutionTimeout ex.elapsedMs))
    else
      match ex.run with
      | RunValue.threw reason => (iso1, Except.error (ExecutionError.Execution reason))
      | RunValue.notArray reason =>
          (iso1, Except.error (ExecutionError.UnexpectedReturnValue reason))
      | RunValue.badViolation reason =>
          (iso1, Except.error (ExecutionError.UnexpectedReturnValue reason))
      | RunValue.completed violations =>
          ({ iso1 with nodes_set := false, file_context_set := false, filename_set := false },
           Except.ok violations)

/-! ## Theorems -/

theorem should_filter_rule_iff (lti : LinesToIgnore) (ruleName : Str) (line : Nat) :
    should_filter_rule lti ruleName line = true ↔ specFilterProp lti ruleName line := by
  unfold should_filter_rule specFilterProp
  cases hif : lti.ignore_file with
  | AllRules => simp
  | SomeRules rules =>
    cases hlk : List.lookup line lti.lines_to_ignore_per_rule with
    | none => simp [hlk]
    | some ids => simp [hlk, or_assoc]

/-- C1: in `analyze_with`'s success branch, a violation of rule R at start
line L is dropped from the returned `RuleResult` iff the `LinesToIgnore`
filtering condition of §3 holds for (R, L); all other violations are kept in
their original order. -/
theorem c1_violation_filtering (lti : LinesToIgnore) (ruleName filename : Str)
    (logOutput : Bool) (pms : Nat) (execution : ExecutionResult) :
    (∀ v, v ∈ (analyzeRuleResult lti ruleName filename logOutput pms
          (Except.ok execution)).violations
        ↔ (v ∈ execution.violations ∧ ¬ specFilterProp lti ruleName v.start.line))
    ∧ List.Sublist
        (analyzeRuleResult lti ruleName filename logOutput pms (Except.ok execution)).violations
        execution.violations := by
  constructor
  · intro v
    rw [show (analyzeRuleResult lti ruleName filename logOutput pms
          (Except.ok execution)).violations
        = execution.violations.filter
            (fun v => !should_filter_rule lti ruleName v.start.line) from rfl,
      List.mem_filter]
    simp only [Bool.not_eq_true', ← should_filter_rule_iff, Bool.not_eq_true]
  · exact List.filter_sublist _

/-- C2: when the watchdog times a script out, `execute_rule_internal` clears
the termination flag before returning the timeout error, and `analyze_with`
turns that error into a `RuleResult` with no violations, errors exactly
`[rule-timeout]`, and no execution error. -/
theorem c2_timeout_result (ex : ScriptExecution) (iso : IsolateState) (lti : LinesToIgnore)
    (ruleName filename : Str) (logOutput : Bool) (pms : Nat)
    (hc : ex.compileError = none) (ht : ex.timedOut = true)
    (hb : JAVASCRIPT_EXECUTION_TIMEOUT_MS < ex.elapsedMs) :
    (execute_rule_internal ex iso).1.termination_requested = false
    ∧ (execute_rule_internal ex iso).2
        = Except.error (ExecutionError.ExecutionTimeout ex.elapsedMs)
    ∧ (analyzeRuleResult lti ruleName filename logOutput pms
        (Except.error (ExecutionError.ExecutionTimeout ex.elapsedMs))).violations = []
    ∧ (analyzeRuleResult lti ruleName filename logOutput pms
        (Except.error (ExecutionError.ExecutionTimeout ex.elapsedMs))).errors
        = [ERROR_RULE_TIMEOUT]
    ∧ (analyzeRuleResult lti ruleName filename logOutput pms
        (Except.error (ExecutionError.ExecutionTimeout ex.elapsedMs))).execution_error = none := by
  obtain ⟨ce, t, r, ms⟩ := ex
  simp only at hc ht
  subst hc; subst ht
  refine ⟨rfl, rfl, ?_, ?_, ?_⟩ <;> simp [analyzeRuleResult]

theorem c2_timeout_result_witness :
    (execute_rule_internal ⟨none, true, RunValue.completed [], 6000⟩
        ⟨true, true, true, false⟩).1.termination_requested = false
    ∧ (execute_rule_internal ⟨none, true, RunValue.completed [], 6000⟩
        ⟨true, true, true, false⟩).2
        = Except.error (ExecutionError.ExecutionTimeout 6000)
    ∧ (analyzeRuleResult ⟨[], [], FileIgnoreBehavior.SomeRules []⟩ [] [] false 0
        (Except.error (ExecutionError.ExecutionTimeout 6000))).violations = []
    ∧ (analyzeRuleResult ⟨[], [], FileIgnoreBehavior.SomeRules []⟩ [] [] false 0
        (Except.error (ExecutionError.ExecutionTimeout 6000))).errors = [ERROR_RULE_TIMEOUT]
    ∧ (analyzeRuleResult ⟨[], [], FileIgnoreBehavior.SomeRules []⟩ [] [] false 0
        (Except.error (ExecutionError.ExecutionTimeout 6000))).execution_error = none :=
  c2_timeout_result ⟨none, true, RunValue.completed [], 6000⟩ ⟨true, true, true, false⟩
    ⟨[], [], FileIgnoreBehavior.SomeRules []⟩ [] [] false 0 rfl rfl (by decide)

/-- C4 counterexample: a timed-out invocation returns with all three
`GLOBAL_` slots still set — the deletion at the end of
`execute_rule_internal` is skipped by the early timeout return, refuting the
claim that the slots are deleted after every invocation. -/
theorem c4_globals_counterexample :
    ((execute_rule_internal ⟨none, true, RunValue.completed [], 6000⟩
        ⟨false, false, false, false⟩).1.nodes_set = true)
    ∧ ((execute_rule_internal ⟨none, true, RunValue.completed [], 6000⟩
        ⟨false, false, false, false⟩).1.file_context_set = true)
    ∧ ((execute_rule_internal ⟨none, true, RunValue.completed [], 6000⟩
        ⟨false, false, false, false⟩).1.filename_set = true) := by
  exact ⟨rfl, rfl, rfl⟩

/-- C4 (amended): the three injected `GLOBAL_` slots are deleted before
`execute_rule_internal` returns iff the invocation succeeds; every error
return (compile failure, timeout, thrown value, bad return shape) leaves them
set. -/
theorem c4_globals_deleted_iff_success (ex : ScriptExecution) (iso : IsolateState) :
    ((execute_rule_internal ex iso).1.nodes_set = false
      ∧ (execute_rule_internal ex iso).1.file_context_set = false
      ∧ (execute_rule_internal ex iso).1.filename_set = false)
    ↔ (∃ vs, (execute_rule_internal ex iso).2 = Except.ok vs) := by
  obtain ⟨ce, t, r, ms⟩ := ex
  cases ce <;> cases t <;> cases r <;> simp [execute_rule_internal]

/-- C7: the rule-identifier extraction of `get_lines_to_ignore` agrees with
the specification's formula: remove the comment and marker substrings, turn
commas into spaces, split on whitespace, and keep exactly the tokens holding
a `/`. -/
theorem c7_rule_identifier_extraction (line : Str) :
    extractRules line = extractRulesSpec line := rfl

/-- C5 counterexample: when byte 400 splits a multi-byte character, the
source's `unwrap_or(full_content)` examines the whole file, so a marker that
lies entirely beyond the 400-byte prefix is still detected — refuting the
claim that only the first `min(400, length)` bytes are examined. -/
theorem c5_prefix_counterexample :
    is_generated_file
        (List.replicate 399 97 ++ [195, 169] ++ strBytes ("Generated by PEG.js"))
        Language.JavaScript = true
    ∧ (generatedMarkers Language.JavaScript).any
        (fun m => listContains m
          ((List.replicate 399 97 ++ [195, 169] ++ strBytes ("Generated by PEG.js")).take
            (min MAX_HEADER_SIZE
              (List.replicate 399 97 ++ [195, 169] ++ strBytes ("Generated by PEG.js")).length)))
        = false := by
  constructor <;> decide

/-- C5 (amended): `is_generated_file` is true iff one of the language's fixed
markers occurs in the examined region — the `min(400, length)`-byte prefix
when that offset is a UTF-8 character boundary, and the whole content
otherwise; languages without a marker list always yield false. -/
theorem c5_generated_header_eq (content : Bytes) (language : Language) :
    is_generated_file content language
      = (generatedMarkers language).any (fun m => listContains m (examinedHeader content)) := by
  cases language <;>
    simp [is_generated_file, generatedMarkers, examinedHeader, Bool.or_assoc]

/-- C9 counterexample: two JavaScript lines of lengths 111 and 110 have
average line length 110.5 > 110, yet `is_minified_file` is false because the
source divides with integer (floor) division — refuting the claim's
exact-average reading. -/
theorem c9_average_counterexample :
    is_minified_file (List.replicate 111 97 ++ [10] ++ List.replicate 110 98)
        Language.JavaScript = false
    ∧ (List.replicate 111 97 ++ [10] ++ List.replicate 110 98 : Bytes) ≠ []
    ∧ 110 * (rustLines 10 13 (List.replicate 111 97 ++ [10] ++ List.replicate 110 98)).length
        < ((rustLines 10 13 (List.replicate 111 97 ++ [10] ++ List.replicate 110 98)).map
            List.length).sum := by
  refine ⟨?_, ?_, ?_⟩ <;> decide

/-- C9 (amended): `is_minified_file` is true iff the language is JavaScript,
the input is nonempty, and the integer (floor) quotient of total line length
by line count exceeds 110; empty input and non-JavaScript languages yield
false. -/
theorem c9_minified_iff (content : Bytes) (language : Language) :
    is_minified_file content language = true
      ↔ (language = Language.JavaScript ∧ content ≠ []
          ∧ 110 < ((rustLines 10 13 content).map List.length).sum
              / (rustLines 10 13 content).length) := by
  unfold is_minified_file
  by_cases h : language = Language.JavaScript
  · subst h
    by_cases hc : content = []
    · subst hc; simp [rustLines]
    · have hne : rustLines 10 13 content ≠ [] := by
        rw [Ne, rustLines_eq_nil_iff]; exact hc
      have hlen : (rustLines 10 13 content).length ≠ 0 := by
        simpa [List.length_eq_zero] using hne
      simp [hlen, hc]
  · simp [h]

theorem resolveLoop_eq_findSome (by_subtree : List (String × String)) (r : List String) :
    resolveLoop by_subtree r
      = (ancestorsRev r).findSome? (fun a => List.lookup (displayPath a) by_subtree) := by
  induction r with
  | nil =>
    simp only [resolveLoop, ancestorsRev, List.findSome?]
    cases List.lookup (displayPath []) by_subtree <;> rfl
  | cons c rest ih =>
    simp only [resolveLoop, ancestorsRev, List.findSome?]
    cases List.lookup (displayPath (c :: rest).reverse) by_subtree <;> simp [ih]

theorem resolveArgument_eq_spec (av : ArgumentValues) (filename : List String) :
    resolveArgument av filename = resolveArgumentSpec av filename := by
  unfold resolveArgument resolveArgumentSpec pathAncestors
  rw [resolveLoop_eq_findSome]

theorem mem_filter_arguments_iff (arguments : List (String × ArgumentValues))
    (filename : List String) (argName v : String) :
    (argName, v) ∈ filter_arguments arguments filename
      ↔ ∃ av, (argName, av) ∈ arguments ∧ resolveArgument av filename = some v := by
  unfold filter_arguments
  rw [List.mem_filterMap]
  constructor
  · rintro ⟨⟨n, av⟩, hmem, hres⟩
    simp only [Option.map_eq_some'] at hres
    obtain ⟨w, hw, heq⟩ := hres
    cases heq
    exact ⟨av, hmem, hw⟩
  · rintro ⟨av, hmem, hres⟩
    exact ⟨(argName, av), hmem, by simp [hres]⟩

theorem resolveLoop_suffix_isSome (by_subtree : List (String × String))
    (r1 r2 : List String) (hsuf : r1 <:+ r2)
    (h1 : (resolveLoop by_subtree r1).isSome) : (resolveLoop by_subtree r2).isSome := by
  induction r2 with
  | nil =>
    rw [List.suffix_nil] at hsuf
    subst hsuf; exact h1
  | cons c rest ih =>
    rcases List.suffix_cons_iff.mp hsuf with heq | hsuf'
    · subst heq; exact h1
    · have := ih hsuf'
      simp only [resolveLoop]
      cases List.lookup (displayPath (c :: rest).reverse) by_subtree <;> simp_all

theorem resolveArgument_mono (av : ArgumentValues) (p1 p2 : List String)
    (hpre : p1 <+: p2) (v : String) (h1 : resolveArgument av p1 = some v) :
    ∃ v2, resolveArgument av p2 = some v2 := by
  have hsuf : p1.reverse <:+ p2.reverse := List.reverse_suffix.mpr hpre
  unfold resolveArgument at h1 ⊢
  cases h2 : resolveLoop av.by_subtree p2.reverse with
  | some w => exact ⟨w, rfl⟩
  | none =>
    cases h1' : resolveLoop av.by_subtree p1.reverse with
    | some u =>
      have := resolveLoop_suffix_isSome av.by_subtree p1.reverse p2.reverse hsuf
        (by simp [h1'])
      rw [h2] at this; simp at this
    | none =>
      rw [h1'] at h1
      exact ⟨v, h1⟩

/-- C6: `get_arguments` emits exactly the configured arguments that resolve
for the file: the value is the deepest ancestor's `by_subtree` entry, found
by walking ancestors from the path itself down to the root, with
`default_value` as the fallback; arguments resolving to nothing are absent. -/
theorem c6_argument_resolution (config : ConfigFile) (rulename : String)
    (filename : List String) (argName v : String) :
    (argName, v) ∈ get_arguments config filename rulename
      ↔ ∃ cfg av,
          (List.lookup (split_rule_name rulename).1 config.rulesets).bind
              (fun r => List.lookup (split_rule_name rulename).2 r.rules) = some cfg
          ∧ (argName, av) ∈ cfg.arguments
          ∧ resolveArgumentSpec av filename = some v := by
  unfold get_arguments
  cases hl : (List.lookup (split_rule_name rulename).1 config.rulesets).bind
      (fun r => List.lookup (split_rule_name rulename).2 r.rules) with
  | none => simp [hl]
  | some cfg =>
    simp only [hl, Option.some.injEq]
    rw [mem_filter_arguments_iff]
    constructor
    · rintro ⟨av, hmem, hres⟩
      exact ⟨cfg, av, rfl, hmem, by rw [← resolveArgument_eq_spec]; exact hres⟩
    · rintro ⟨cfg', av, hcfg, hmem, hres⟩
      cases hcfg
      exact ⟨av, hmem, by rw [resolveArgument_eq_spec]; exact hres⟩

/-- C8: argument lookup is monotone in the file path — if P1 is an ancestor
prefix of P2, any argument name that `get_arguments` resolves at P1 also
resolves at P2 (possibly to a deeper override). -/
theorem c8_argument_monotone (config : ConfigFile) (rulename : String)
    (p1 p2 : List String) (argName v : String) (hpre : p1 <+: p2)
    (h1 : (argName, v) ∈ get_arguments config p1 rulename) :
    ∃ v2, (argName, v2) ∈ get_arguments config p2 rulename := by
  unfold get_arguments at h1 ⊢
  cases hl : (List.lookup (split_rule_name rulename).1 config.rulesets).bind
      (fun r => List.lookup (split_rule_name rulename).2 r.rules) with
  | none => simp only [hl] at h1; simp at h1
  | some cfg =>
    simp only [hl] at h1 ⊢
    rw [mem_filter_arguments_iff] at h1
    obtain ⟨av, hmem, hres⟩ := h1
    obtain ⟨v2, hv2⟩ := resolveArgument_mono av p1 p2 hpre v hres
    exact ⟨v2, (mem_filter_arguments_iff cfg.arguments p2 argName v2).mpr ⟨av, hmem, hv2⟩⟩

theorem c8_argument_monotone_witness :
    ∃ v2, (("max-lines"), v2) ∈
      get_arguments
        ⟨[(("rs"), ⟨[(("r"), ⟨[(("max-lines"), ⟨none, [(("src"), ("200"))]⟩)]⟩)]⟩)]⟩
        [("src"), ("sub")] ("rs/r") :=
  c8_argument_monotone
    ⟨[(("rs"), ⟨[(("r"), ⟨[(("max-lines"), ⟨none, [(("src"), ("200"))]⟩)]⟩)]⟩)]⟩
    ("rs/r") [("src")] [("src"), ("sub")] ("max-lines") ("200")
    ⟨[("sub")], rfl⟩ (by decide)

/-! ### Lemmas about the suppression-parser loop -/

theorem lookup_assocInsert_self {β : Type} (k : Nat) (v : β) (m : List (Nat × β)) :
    List.lookup k (assocInsert k v m) = some v := by
  induction m with
  | nil => simp [assocInsert, List.lookup]
  | cons kv t ih =>
    obtain ⟨k2, v2⟩ := kv
    by_cases h : k2 = k
    · subst h; simp [assocInsert, List.lookup]
    · have hb : (k == k2) = false := beq_eq_false_iff_ne.mpr (Ne.symm h)
      simp [assocInsert, h, List.lookup, hb, ih]

theorem lookup_assocInsert_ne {β : Type} (k k' : Nat) (v : β) (m : List (Nat × β))
    (h : k' ≠ k) : List.lookup k' (assocInsert k v m) = List.lookup k' m := by
  have hb : (k' == k) = false := beq_eq_false_iff_ne.mpr h
  induction m with
  | nil => simp [assocInsert, List.lookup, hb]
  | cons kv t ih =>
    obtain ⟨k2, v2⟩ := kv
    by_cases h2 : k2 = k
    · subst h2; simp [assocInsert, List.lookup, hb]
    · by_cases h3 : k' = k2
      · subst h3; simp [assocInsert, h2, List.lookup]
      · have hb3 : (k' == k2) = false := beq_eq_false_iff_ne.mpr h3
        simp [assocInsert, h2, List.lookup, hb3, ih]

theorem mem_assocInsert {β : Type} (k : Nat) (v : β) (m : List (Nat × β)) :
    ∀ kv ∈ assocInsert k v m, kv.1 = k ∨ kv ∈ m := by
  induction m with
  | nil => simp [assocInsert]
  | cons kv0 t ih =>
    obtain ⟨k2, v2⟩ := kv0
    intro kv hkv
    by_cases h : k2 = k
    · subst h
      simp only [assocInsert, if_pos rfl] at hkv
      cases hkv with
      | head => exact Or.inl rfl
      | tail _ h1 => exact Or.inr (List.mem_cons_of_mem _ h1)
    · simp only [assocInsert, if_neg h] at hkv
      cases hkv with
      | head => exact Or.inr (List.mem_cons_self _ _)
      | tail _ h2 =>
        rcases ih kv h2 with h3 | h3
        · exact Or.inl h3
        · exact Or.inr (List.mem_cons_of_mem _ h3)

/-- Exhaustive description of one pattern step: either the pattern is absent
and the state is untouched, or exactly one of the four dispatch updates of
`get_lines_to_ignore` happens. -/
theorem stepPat_cases (n : Nat) (line : Str) (st : IgnoreAccum) (p : Str) :
    (listContains p (stripWhitespace line) = false ∧ stepPat n line st p = st)
    ∨ (listContains p (stripWhitespace line) = true
        ∧ ((extractRules line = [] ∧ n = 1
              ∧ stepPat n line st p = { st with ignoreFileAllRules := true })
          ∨ (extractRules line = [] ∧ n ≠ 1
              ∧ stepPat n line st p = { st with linesAll := st.linesAll ++ [n + 1] })
          ∨ (extractRules line ≠ [] ∧ n = 1
              ∧ stepPat n line st p
                  = { st with rulesToIgnore := st.rulesToIgnore ++ extractRules line })
          ∨ (extractRules line ≠ [] ∧ n ≠ 1
              ∧ stepPat n line st p
                  = { st with perRule := assocInsert (n + 1) (extractRules line) st.perRule }))) := by
  by_cases hc : listContains p (stripWhitespace line) = true
  · refine Or.inr ⟨hc, ?_⟩
    by_cases hp : extractRules line = [] <;> by_cases hn : n = 1
    · exact Or.inl ⟨hp, hn, by simp [stepPat, hc, hp, hn]⟩
    · exact Or.inr (Or.inl ⟨hp, hn, by simp [stepPat, hc, hp, hn]⟩)
    · exact Or.inr (Or.inr (Or.inl ⟨hp, hn, by simp [stepPat, hc, hp, hn]⟩))
    · exact Or.inr (Or.inr (Or.inr ⟨hp, hn, by simp [stepPat, hc, hp, hn]⟩))
  · rw [Bool.not_eq_true] at hc
    exact Or.inl ⟨hc, by simp [stepPat, hc]⟩

theorem stepPat_linesAll_mem (n : Nat) (line : Str) (st : IgnoreAccum) (p : Str)
    (x : Nat) (hx : x ∈ st.linesAll) : x ∈ (stepPat n line st p).linesAll := by
  rcases stepPat_cases n line st p with ⟨_, he⟩ | ⟨_, ⟨_, _, he⟩ | ⟨_, _, he⟩ | ⟨_, _, he⟩ | ⟨_, _, he⟩⟩ <;>
    rw [he] <;> simp [hx]

theorem stepPat_linesAll_new (n : Nat) (line : Str) (st : IgnoreAccum) (p : Str) :
    ∀ x ∈ (stepPat n line st p).linesAll, x ∈ st.linesAll ∨ x = n + 1 := by
  intro x hx
  rcases stepPat_cases n line st p with ⟨_, he⟩ | ⟨_, ⟨_, _, he⟩ | ⟨_, _, he⟩ | ⟨_, _, he⟩ | ⟨_, _, he⟩⟩ <;>
      rw [he] at hx
  · exact Or.inl hx
  · exact Or.inl hx
  · simp only [List.mem_append, List.mem_singleton] at hx
    exact hx
  · exact Or.inl hx
  · exact Or.inl hx

theorem stepPat_flag_mono (n : Nat) (line : Str) (st : IgnoreAccum) (p : Str)
    (h : st.ignoreFileAllRules = true) : (stepPat n line st p).ignoreFileAllRules = true := by
  rcases stepPat_cases n line st p with ⟨_, he⟩ | ⟨_, ⟨_, _, he⟩ | ⟨_, _, he⟩ | ⟨_, _, he⟩ | ⟨_, _, he⟩⟩ <;>
    rw [he] <;> simp [h]

theorem stepPat_flag_ne1 (n : Nat) (line : Str) (st : IgnoreAccum) (p : Str)
    (h : n ≠ 1) : (stepPat n line st p).ignoreFileAllRules = st.ignoreFileAllRules := by
  rcases stepPat_cases n line st p with ⟨_, he⟩ | ⟨_, ⟨_, hn, he⟩ | ⟨_, _, he⟩ | ⟨_, hn, he⟩ | ⟨_, _, he⟩⟩ <;>
      rw [he]
  exact absurd hn h

theorem stepPat_rules_mem (n : Nat) (line : Str) (st : IgnoreAccum) (p : Str)
    (r : Str) (h : r ∈ st.rulesToIgnore) : r ∈ (stepPat n line st p).rulesToIgnore := by
  rcases stepPat_cases n line st p with ⟨_, he⟩ | ⟨_, ⟨_, _, he⟩ | ⟨_, _, he⟩ | ⟨_, _, he⟩ | ⟨_, _, he⟩⟩ <;>
    rw [he] <;> simp [h]

theorem stepPat_perRule_lookup_ne (n : Nat) (line : Str) (st : IgnoreAccum) (p : Str)
    (k : Nat) (hk : k ≠ n + 1) :
    List.lookup k (stepPat n line st p).perRule = List.lookup k st.perRule := by
  rcases stepPat_cases n line st p with ⟨_, he⟩ | ⟨_, ⟨_, _, he⟩ | ⟨_, _, he⟩ | ⟨_, _, he⟩ | ⟨_, _, he⟩⟩ <;>
      rw [he]
  exact lookup_assocInsert_ne (n + 1) k _ _ hk

theorem stepPat_perRule_lookup_stable (n : Nat) (line : Str) (st : IgnoreAccum) (p : Str)
    (h : List.lookup (n + 1) st.perRule = some (extractRules line)) :
    List.lookup (n + 1) (stepPat n line st p).perRule = some (extractRules line) := by
  rcases stepPat_cases n line st p with ⟨_, he⟩ | ⟨_, ⟨_, _, he⟩ | ⟨_, _, he⟩ | ⟨_, _, he⟩ | ⟨_, _, he⟩⟩ <;>
      rw [he] <;> try exact h
  exact lookup_assocInsert_self (n + 1) _ _

theorem stepPat_perRule_new (n : Nat) (line : Str) (st : IgnoreAccum) (p : Str) :
    ∀ kv ∈ (stepPat n line st p).perRule, kv ∈ st.perRule ∨ kv.1 = n + 1 := by
  intro kv hkv
  rcases stepPat_cases n line st p with ⟨_, he⟩ | ⟨_, ⟨_, _, he⟩ | ⟨_, _, he⟩ | ⟨_, _, he⟩ | ⟨_, _, he⟩⟩ <;>
      rw [he] at hkv <;> try exact Or.inl hkv
  rcases mem_assocInsert (n + 1) _ _ kv hkv with h | h
  · exact Or.inr h
  · exact Or.inl h

theorem stepPat_frozen_at1 (line : Str) (st : IgnoreAccum) (p : Str) :
    (stepPat 1 line st p).linesAll = st.linesAll
    ∧ (stepPat 1 line st p).perRule = st.perRule := by
  rcases stepPat_cases 1 line st p with ⟨_, he⟩ | ⟨_, ⟨_, _, he⟩ | ⟨_, hn, he⟩ | ⟨_, _, he⟩ | ⟨_, hn, he⟩⟩ <;>
      rw [he] <;> try exact ⟨rfl, rfl⟩
  · exact absurd rfl hn
  · exact absurd rfl hn

theorem stepPat_flag_at1 (line : Str) (st : IgnoreAccum) (p : Str) :
    (stepPat 1 line st p).ignoreFileAllRules
      = (st.ignoreFileAllRules
          || (listContains p (stripWhitespace line) && (extractRules line).isEmpty)) := by
  rcases stepPat_cases 1 line st p with ⟨hc, he⟩ |
      ⟨hc, ⟨hp, _, he⟩ | ⟨_, hn, he⟩ | ⟨hp, _, he⟩ | ⟨_, hn, he⟩⟩ <;> rw [he]
  · simp [hc]
  · simp [hc, hp]
  · exact absurd rfl hn
  · simp [hc, List.isEmpty_eq_true, hp]
  · exact absurd rfl hn

theorem stepPat_effect (n : Nat) (line : Str) (st : IgnoreAccum) (p : Str)
    (hc : listContains p (stripWhitespace line) = true) :
    ((extractRules line = [] →
        (n = 1 → (stepPat n line st p).ignoreFileAllRules = true)
        ∧ (n ≠ 1 → (n + 1) ∈ (stepPat n line st p).linesAll))
     ∧ (extractRules line ≠ [] →
        (n = 1 → ∀ r ∈ extractRules line, r ∈ (stepPat n line st p).rulesToIgnore)
        ∧ (n ≠ 1 → List.lookup (n + 1) (stepPat n line st p).perRule
            = some (extractRules line)))) := by
  rcases stepPat_cases n line st p with ⟨hc2, _⟩ |
      ⟨_, ⟨hp, hn, he⟩ | ⟨hp, hn, he⟩ | ⟨hp, hn, he⟩ | ⟨hp, hn, he⟩⟩
  · rw [hc] at hc2; cases hc2
  · refine ⟨fun _ => ⟨fun _ => by rw [he], fun h1 => absurd hn h1⟩, fun h => absurd hp h⟩
  · refine ⟨fun _ => ⟨fun h1 => absurd h1 hn, fun _ => by rw [he]; simp⟩, fun h => absurd hp h⟩
  · refine ⟨fun h => absurd h hp, fun _ => ⟨fun _ => by rw [he]; intro r hr; simp [hr],
      fun h1 => absurd hn h1⟩⟩
  · refine ⟨fun h => absurd h hp, fun _ => ⟨fun h1 => absurd h1 hn, fun _ => ?_⟩⟩
    rw [he]
    exact lookup_assocInsert_self (n + 1) _ _

theorem processLine_preserve (P : IgnoreAccum → Prop) (n : Nat) (line : Str)
    (hstep : ∀ st p, P st → P (stepPat n line st p)) :
    ∀ pats st, P st → P (processLine pats n line st) := by
  intro pats
  induction pats with
  | nil => intro st h; exact h
  | cons p ps ih =>
    intro st h
    show P (List.foldl (stepPat n line) (stepPat n line st p) ps)
    exact ih _ (hstep st p h)

theorem processLine_effect (P : IgnoreAccum → Prop) (n : Nat) (line : Str)
    (hpres : ∀ st p, P st → P (stepPat n line st p))
    (heff : ∀ st p, listContains p (stripWhitespace line) = true → P (stepPat n line st p)) :
    ∀ pats st, lineMatches pats line = true → P (processLine pats n line st) := by
  intro pats
  induction pats with
  | nil => intro st h; simp [lineMatches] at h
  | cons p ps ih =>
    intro st h
    by_cases hc : listContains p (stripWhitespace line) = true
    · show P (List.foldl (stepPat n line) (stepPat n line st p) ps)
      exact processLine_preserve P n line hpres ps _ (heff st p hc)
    · have h2 : lineMatches ps line = true := by
        simp only [lineMatches, List.any_cons, Bool.or_eq_true] at h
        rcases h with h | h
        · exact absurd h hc
        · exact h
      show P (List.foldl (stepPat n line) (stepPat n line st p) ps)
      exact ih _ h2

theorem processLines_preserve (P : IgnoreAccum → Prop) (pats : List Str)
    (hstep : ∀ m l st, P st → P (processLine pats m l st)) :
    ∀ ls n st, P st → P (processLines pats n ls st) := by
  intro ls
  induction ls with
  | nil => intro n st h; exact h
  | cons l ls ih =>
    intro n st h
    show P (processLines pats (n + 1) ls (processLine pats n l st))
    exact ih (n + 1) _ (hstep n l st h)

theorem processLines_flag_mono (pats : List Str) (ls : List Str) (n : Nat) (st : IgnoreAccum)
    (h : st.ignoreFileAllRules = true) :
    (processLines pats n ls st).ignoreFileAllRules = true :=
  processLines_preserve (fun s => s.ignoreFileAllRules = true) pats
    (fun m l st0 h0 =>
      processLine_preserve (fun s => s.ignoreFileAllRules = true) m l
        (fun s p hs => stepPat_flag_mono m l s p hs) pats st0 h0)
    ls n st h

theorem processLines_linesAll_mem (pats : List Str) (x : Nat) (ls : List Str) (n : Nat)
    (st : IgnoreAccum) (h : x ∈ st.linesAll) :
    x ∈ (processLines pats n ls st).linesAll :=
  processLines_preserve (fun s => x ∈ s.linesAll) pats
    (fun m l st0 h0 =>
      processLine_preserve (fun s => x ∈ s.linesAll) m l
        (fun s p hs => stepPat_linesAll_mem m l s p x hs) pats st0 h0)
    ls n st h

theorem processLines_rules_mem (pats : List Str) (r : Str) (ls : List Str) (n : Nat)
    (st : IgnoreAccum) (h : r ∈ st.rulesToIgnore) :
    r ∈ (processLines pats n ls st).rulesToIgnore :=
  processLines_preserve (fun s => r ∈ s.rulesToIgnore) pats
    (fun m l st0 h0 =>
      processLine_preserve (fun s => r ∈ s.rulesToIgnore) m l
        (fun s p hs => stepPat_rules_mem m l s p r hs) pats st0 h0)
    ls n st h

theorem processLines_perRule_lookup (pats : List Str) (k : Nat) (v : List Str) :
    ∀ ls n st, k < n + 1 → List.lookup k st.perRule = some v →
      List.lookup k (processLines pats n ls st).perRule = some v := by
  intro ls
  induction ls with
  | nil => intro n st _ h; exact h
  | cons l ls ih =>
    intro n st hk h
    show List.lookup k (processLines pats (n + 1) ls (processLine pats n l st)).perRule = some v
    refine ih (n + 1) _ (Nat.lt_trans hk (Nat.lt_succ_self _)) ?_
    refine processLine_preserve (fun s => List.lookup k s.perRule = some v) n l
      (fun s p hs => ?_) pats st h
    show List.lookup k (stepPat n l s p).perRule = some v
    rw [stepPat_perRule_lookup_ne n l s p k (Nat.ne_of_lt hk)]
    exact hs

theorem processLine_flag_ne1 (pats : List Str) (n : Nat) (line : Str) (st : IgnoreAccum)
    (hn : n ≠ 1) :
    (processLine pats n line st).ignoreFileAllRules = st.ignoreFileAllRules :=
  processLine_preserve (fun s => s.ignoreFileAllRules = st.ignoreFileAllRules) n line
    (fun s p hs => by
      show (stepPat n line s p).ignoreFileAllRules = st.ignoreFileAllRules
      rw [stepPat_flag_ne1 n line s p hn]; exact hs) pats st rfl

theorem processLines_flag_ge2 (pats : List Str) :
    ∀ ls n st, 2 ≤ n →
      (processLines pats n ls st).ignoreFileAllRules = st.ignoreFileAllRules := by
  intro ls
  induction ls with
  | nil => intro n st _; rfl
  | cons l ls ih =>
    intro n st hn
    show (processLines pats (n + 1) ls (processLine pats n l st)).ignoreFileAllRules
        = st.ignoreFileAllRules
    rw [ih (n + 1) _ (Nat.le_succ_of_le hn)]
    exact processLine_flag_ne1 pats n l st (by omega)

theorem processLine_flag_at1 (pats : List Str) (line : Str) :
    ∀ st, (processLine pats 1 line st).ignoreFileAllRules
      = (st.ignoreFileAllRules || (lineMatches pats line && (extractRules line).isEmpty)) := by
  induction pats with
  | nil => intro st; simp [processLine, lineMatches]
  | cons p ps ih =>
    intro st
    show (List.foldl (stepPat 1 line) (stepPat 1 line st p) ps).ignoreFileAllRules = _
    rw [show List.foldl (stepPat 1 line) (stepPat 1 line st p) ps
        = processLine ps 1 line (stepPat 1 line st p) from rfl, ih]
    rw [stepPat_flag_at1 line st p]
    simp only [lineMatches, List.any_cons]
    cases st.ignoreFileAllRules <;>
      cases hc : listContains p (stripWhitespace line) <;>
        cases he : (extractRules line).isEmpty <;>
          cases ha : List.any ps (fun q => listContains q (stripWhitespace line)) <;> rfl

/-- The per-line dispatch facts, carried to the end of the outer loop: a line
at 0-based index `i` (line number `n + i`) whose stripped form contains a
disabling pattern leaves its footprint in the final accumulator. -/
theorem processLines_line_effect (pats : List Str) :
    ∀ ls n (st : IgnoreAccum) i ℓ, ls[i]? = some ℓ → lineMatches pats ℓ = true →
      ((extractRules ℓ = [] →
          (n + i = 1 → (processLines pats n ls st).ignoreFileAllRules = true)
          ∧ (n + i ≠ 1 → (n + i + 1) ∈ (processLines pats n ls st).linesAll))
       ∧ (extractRules ℓ ≠ [] →
          (n + i = 1 → ∀ r ∈ extractRules ℓ, r ∈ (processLines pats n ls st).rulesToIgnore)
          ∧ (n + i ≠ 1 → List.lookup (n + i + 1) (processLines pats n ls st).perRule
              = some (extractRules ℓ)))) := by
  intro ls
  induction ls with
  | nil => intro n st i ℓ h; simp at h
  | cons l ls ih =>
    intro n st i ℓ hget hmatch
    cases i with
    | zero =>
      have hl : ℓ = l := by simpa using hget.symm
      subst hl
      simp only [Nat.add_zero]
      have hrun : processLines pats n (ℓ :: ls) st
          = processLines pats (n + 1) ls (processLine pats n ℓ st) := rfl
      rw [hrun]
      constructor
      · intro hp
        constructor
        · intro hn1
          refine processLines_flag_mono pats ls (n + 1) _ ?_
          refine processLine_effect (fun s => s.ignoreFileAllRules = true) n ℓ
            (fun s p hs => stepPat_flag_mono n ℓ s p hs)
            (fun s p hc => ((stepPat_effect n ℓ s p hc).1 hp).1 hn1) pats st hmatch
        · intro hn1
          refine processLines_linesAll_mem pats (n + 1) ls (n + 1) _ ?_
          refine processLine_effect (fun s => (n + 1) ∈ s.linesAll) n ℓ
            (fun s p hs => stepPat_linesAll_mem n ℓ s p (n + 1) hs)
            (fun s p hc => ((stepPat_effect n ℓ s p hc).1 hp).2 hn1) pats st hmatch
      · intro hp
        constructor
        · intro hn1 r hr
          refine processLines_rules_mem pats r ls (n + 1) _ ?_
          refine processLine_effect (fun s => r ∈ s.rulesToIgnore) n ℓ
            (fun s p hs => stepPat_rules_mem n ℓ s p r hs)
            (fun s p hc => ((stepPat_effect n ℓ s p hc).2 hp).1 hn1 r hr) pats st hmatch
        · intro hn1
          refine processLines_perRule_lookup pats (n + 1) (extractRules ℓ) ls (n + 1) _
            (Nat.lt_succ_self _) ?_
          refine processLine_effect
            (fun s => List.lookup (n + 1) s.perRule = some (extractRules ℓ)) n ℓ
            (fun s p hs => stepPat_perRule_lookup_stable n ℓ s p hs)
            (fun s p hc => ((stepPat_effect n ℓ s p hc).2 hp).2 hn1) pats st hmatch
    | succ j =>
      have hget2 : ls[j]? = some ℓ := by simpa using hget
      have harith : n + 1 + j = n + (j + 1) := by omega
      have hrun : processLines pats n (l :: ls) st
          = processLines pats (n + 1) ls (processLine pats n l st) := rfl
      rw [hrun, ← harith]
      exact ih (n + 1) (processLine pats n l st) j ℓ hget2 hmatch

/-- C3: the line dispatch of `get_lines_to_ignore` — a pattern-bearing line at
0-based index `i` (1-based line number `i + 1`) sets the file-wide AllRules
behavior when it is the first line and has no identifiers, extends the
file-wide SomeRules list when it is the first line and has identifiers,
suppresses all rules on line `i + 2` when it is a later line with no
identifiers, maps line `i + 2` to its identifier list when it is a later line
with identifiers; and the final `ignore_file` is `AllRules` iff the first
line bears a pattern with no identifiers, regardless of any SomeRules
accumulation. -/
theorem c3_suppression_dispatch (code : Str) (language : Language) :
    (∀ i ℓ, (rustLines '\n' '\r' code)[i]? = some ℓ →
        lineMatches (disabling_patterns language) ℓ = true →
        ((extractRules ℓ = [] →
            (i = 0 →
              (get_lines_to_ignore code language).ignore_file = FileIgnoreBehavior.AllRules)
            ∧ (i ≠ 0 → (i + 2) ∈ (get_lines_to_ignore code language).lines_to_ignore))
         ∧ (extractRules ℓ ≠ [] →
            (i = 0 → ∀ rules, (get_lines_to_ignore code language).ignore_file
                = FileIgnoreBehavior.SomeRules rules → ∀ r ∈ extractRules ℓ, r ∈ rules)
            ∧ (i ≠ 0 →
                List.lookup (i + 2) (get_lines_to_ignore code language).lines_to_ignore_per_rule
                  = some (extractRules ℓ)))))
    ∧ ((get_lines_to_ignore code language).ignore_file = FileIgnoreBehavior.AllRules
        ↔ ∃ ℓ, (rustLines '\n' '\r' code).head? = some ℓ
            ∧ lineMatches (disabling_patterns language) ℓ = true ∧ extractRules ℓ = []) := by
  constructor
  · intro i ℓ hget hmatch
    have heff := processLines_line_effect (disabling_patterns language)
      (rustLines '\n' '\r' code) 1 initAccum i ℓ hget hmatch
    constructor
    · intro hp
      have h1 := heff.1 hp
      constructor
      · intro hi0
        subst hi0
        have hflag : (processLines (disabling_patterns language) 1
            (rustLines '\n' '\r' code) initAccum).ignoreFileAllRules = true := h1.1 rfl
        show (if (processLines (disabling_patterns language) 1 (rustLines '\n' '\r' code)
              initAccum).ignoreFileAllRules then FileIgnoreBehavior.AllRules
            else FileIgnoreBehavior.SomeRules _) = FileIgnoreBehavior.AllRules
        rw [if_pos hflag]
      · intro hi0
        have hmem := h1.2 (by omega)
        have harith : 1 + i + 1 = i + 2 := by omega
        rw [harith] at hmem
        exact hmem
    · intro hp
      have h2 := heff.2 hp
      constructor
      · intro hi0 rules hrules r hr
        subst hi0
        have hrF := h2.1 rfl r hr
        by_cases hf : (processLines (disabling_patterns language) 1
            (rustLines '\n' '\r' code) initAccum).ignoreFileAllRules = true
        · exfalso
          have : (get_lines_to_ignore code language).ignore_file
              = FileIgnoreBehavior.AllRules := by
            show (if _ then _ else _) = _
            rw [if_pos hf]
          rw [this] at hrules
          cases hrules
        · have : (get_lines_to_ignore code language).ignore_file
              = FileIgnoreBehavior.SomeRules (processLines (disabling_patterns language) 1
                  (rustLines '\n' '\r' code) initAccum).rulesToIgnore := by
            show (if _ then _ else _) = _
            rw [if_neg hf]
          rw [this] at hrules
          cases hrules
          exact hrF
      · intro hi0
        have hlk := h2.2 (by omega)
        have harith : 1 + i + 1 = i + 2 := by omega
        rw [harith] at hlk
        exact hlk
  · cases hls : rustLines '\n' '\r' code with
    | nil =>
      constructor
      · intro hIF
        exfalso
        have : (get_lines_to_ignore code language).ignore_file
            = FileIgnoreBehavior.SomeRules [] := by
          simp only [get_lines_to_ignore, hls]
          rfl
        rw [this] at hIF
        cases hIF
      · rintro ⟨ℓ, hhead, -⟩
        simp at hhead
    | cons l rest =>
      have hflag : (processLines (disabling_patterns language) 1
            (rustLines '\n' '\r' code) initAccum).ignoreFileAllRules
          = (lineMatches (disabling_patterns language) l && (extractRules l).isEmpty) := by
        rw [hls]
        show (processLines (disabling_patterns language) 2 rest
            (processLine (disabling_patterns language) 1 l initAccum)).ignoreFileAllRules = _
        rw [processLines_flag_ge2 (disabling_patterns language) rest 2 _ (le_refl 2)]
        rw [processLine_flag_at1 (disabling_patterns language) l initAccum]
        rfl
      constructor
      · intro hIF
        refine ⟨l, rfl, ?_⟩
        by_cases hf : (processLines (disabling_patterns language) 1
            (rustLines '\n' '\r' code) initAccum).ignoreFileAllRules = true
        · rw [hf] at hflag
          have hand := hflag.symm
          rw [Bool.and_eq_true] at hand
          exact ⟨hand.1, by simpa [List.isEmpty_eq_true] using hand.2⟩
        · exfalso
          have : (get_lines_to_ignore code language).ignore_file
              = FileIgnoreBehavior.SomeRules (processLines (disabling_patterns language) 1
                  (rustLines '\n' '\r' code) initAccum).rulesToIgnore := by
            show (if _ then _ else _) = _
            rw [if_neg hf]
          rw [this] at hIF
          cases hIF
      · rintro ⟨ℓ, hhead, hm, hp⟩
        have hl : ℓ = l := by
          have := hhead
          simp at this
          exact this.symm
        subst hl
        have hf : (processLines (disabling_patterns language) 1
            (rustLines '\n' '\r' code) initAccum).ignoreFileAllRules = true := by
          rw [hflag, hm, hp]
          rfl
        show (if _ then _ else _) = _
        rw [if_pos hf]

theorem c3_suppression_dispatch_witness :
    (3 : Nat) ∈ (get_lines_to_ignore (("foo\n#no-dd-sa\nbar").toList)
        Language.Python).lines_to_ignore
    ∧ List.lookup 3 (get_lines_to_ignore (("x\n#no-dd-sa rs/r1\ny").toList)
        Language.Python).lines_to_ignore_per_rule = some [("rs/r1").toList]
    ∧ ((get_lines_to_ignore (("#no-dd-sa\nz").toList) Language.Python).ignore_file
        = FileIgnoreBehavior.AllRules) := by
  refine ⟨?_, ?_, ?_⟩
  · exact (((c3_suppression_dispatch (("foo\n#no-dd-sa\nbar").toList) Language.Python).1
      1 (("#no-dd-sa").toList) (by decide) (by decide)).1 (by decide)).2 (by decide)
  · have h := (((c3_suppression_dispatch (("x\n#no-dd-sa rs/r1\ny").toList) Language.Python).1
      1 (("#no-dd-sa rs/r1").toList) (by decide) (by decide)).2 (by decide)).2 (by decide)
    rw [h]
    decide
  · exact (c3_suppression_dispatch (("#no-dd-sa\nz").toList) Language.Python).2.mpr
      ⟨("#no-dd-sa").toList, by decide, by decide, by decide⟩

/-- The invariant of C10 over the suppression accumulator. -/
def lineBoundInv (st : IgnoreAccum) : Prop :=
  (∀ x ∈ st.linesAll, 3 ≤ x) ∧ (∀ kv ∈ st.perRule, 3 ≤ kv.1)

theorem stepPat_bound (m : Nat) (l : Str) (st : IgnoreAccum) (p : Str) (hm : 2 ≤ m)
    (h : lineBoundInv st) : lineBoundInv (stepPat m l st p) := by
  constructor
  · intro x hx
    rcases stepPat_linesAll_new m l st p x hx with h1 | h1
    · exact h.1 x h1
    · omega
  · intro kv hkv
    rcases stepPat_perRule_new m l st p kv hkv with h1 | h1
    · exact h.2 kv h1
    · omega

theorem processLines_bound (pats : List Str) :
    ∀ ls m st, 2 ≤ m → lineBoundInv st → lineBoundInv (processLines pats m ls st) := by
  intro ls
  induction ls with
  | nil => intro m st _ h; exact h
  | cons l ls ih =>
    intro m st hm h
    show lineBoundInv (processLines pats (m + 1) ls (processLine pats m l st))
    refine ih (m + 1) _ (by omega) ?_
    exact processLine_preserve lineBoundInv m l (fun s p hs => stepPat_bound m l s p hm hs)
      pats st h

theorem processLine_frozen_at1 (pats : List Str) (l : Str) (st : IgnoreAccum) :
    (processLine pats 1 l st).linesAll = st.linesAll
    ∧ (processLine pats 1 l st).perRule = st.perRule :=
  processLine_preserve (fun s => s.linesAll = st.linesAll ∧ s.perRule = st.perRule) 1 l
    (fun s p hs => by
      have hf := stepPat_frozen_at1 l s p
      exact ⟨hf.1.trans hs.1, hf.2.trans hs.2⟩) pats st ⟨rfl, rfl⟩

/-- C10: every line number in `lines_to_ignore` and every key of
`lines_to_ignore_per_rule` is at least 3 — a directive on line 1 is routed to
the file-wide behavior, so no line-scoped suppression of line 1 or 2 can ever
be produced. -/
theorem c10_line_numbers_ge_three (code : Str) (language : Language) :
    (∀ x ∈ (get_lines_to_ignore code language).lines_to_ignore, 3 ≤ x)
    ∧ (∀ kv ∈ (get_lines_to_ignore code language).lines_to_ignore_per_rule, 3 ≤ kv.1) := by
  have hinv : lineBoundInv (processLines (disabling_patterns language) 1
      (rustLines '\n' '\r' code) initAccum) := by
    cases hls : rustLines '\n' '\r' code with
    | nil => exact ⟨by simp [processLines, initAccum], by simp [processLines, initAccum]⟩
    | cons l rest =>
      show lineBoundInv (processLines (disabling_patterns language) 2 rest
        (processLine (disabling_patterns language) 1 l initAccum))
      refine processLines_bound (disabling_patterns language) rest 2 _ (le_refl 2) ?_
      have hf := processLine_frozen_at1 (disabling_patterns language) l initAccum
      constructor
      · intro x hx
        rw [hf.1] at hx
        simp [initAccum] at hx
      · intro kv hkv
        rw [hf.2] at hkv
        simp [initAccum] at hkv
  exact ⟨hinv.1, hinv.2⟩

theorem c10_line_numbers_witness :
    (3 : Nat) ∈ (get_lines_to_ignore (("a\n#no-dd-sa\nb").toList)
        Language.Python).lines_to_ignore
    ∧ 3 ≤ 3 :=
  ⟨by decide,
   (c10_line_numbers_ge_three (("a\n#no-dd-sa\nb").toList) Language.Python).1 3 (by decide)⟩

end StaticAnalyzer
